import Mathlib

/-!
Verification of the data-sync ingestion pipeline.

Shallow embedding of the repository sources:
  - db.ts            : events table, checkpoint row, bulk insert with staged
                       COPY primary path and chunked-insert fallback
  - worker.ts        : processBatch
  - api.ts (part_000): throttledRequest and fetchEvents with 429 / 400 /
                       504-or-network / fatal handling, modelled with an
                       explicit integer clock and a script of attempt outcomes
  - index.ts (part_001): runIngestion with its fetcher and writer loops,
                       modelled both as an action-trace function (fetcherGo)
                       and as a schedulable small-step pipeline (runPipe)
-/

/-! ## Events table (db.ts) -/

/-- A row of the events table: columns id, event_name, user_id, timestamp, raw. -/
structure Row where
  id : String
  event_name : String
  user_id : String
  timestamp : String
  raw : String
deriving DecidableEq, Repr

/-- The events table, keyed by id (PRIMARY KEY). -/
abbrev EventStore := List Row

/-- Whether the table already holds a row with the given id. -/
def hasId (s : EventStore) (i : String) : Bool := s.any fun r => r.id = i

/-- INSERT ... ON CONFLICT (id) DO NOTHING for a single row. -/
def insertRow (s : EventStore) (r : Row) : EventStore :=
  if hasId s r.id then s else s ++ [r]

/-- INSERT ... ON CONFLICT (id) DO NOTHING for a list of rows, in order. -/
def insertRows (s : EventStore) (rs : List Row) : EventStore := rs.foldl insertRow s

/-! ## Incoming event objects and row extraction (db.ts lines 101-110, 161-168) -/

/-- A fetched event object as the JS code sees it: every field the extraction
chain probes is optional; stringified models JSON.stringify(e). -/
structure JsEvent where
  id : Option String
  event_name : Option String
  type : Option String
  name : Option String
  user_id : Option String
  userId : Option String
  timestamp : Option String
  created_at : Option String
  createdAt : Option String
  stringified : String
deriving DecidableEq, Repr

/-- new Date(0).toISOString(). -/
def epochISO : String := "1970-01-01T00:00:00.000Z"

/-- normalizeTimestamp from db.ts: falsy input or an unparseable date gives the
epoch sentinel. The JS Date parser is abstracted as the parameter pd: pd s =
some t when s parses to the ISO string t, none when the date is invalid. -/
def normalizeTimestamp (pd : String → Option String) : Option String → String
  | none => epochISO
  | some s => if s = "" then epochISO else match pd s with | some t => t | none => epochISO

/-- Field extraction shared verbatim by both insert paths (db.ts lines
104-108 and 162-167): id, event_name ?? type ?? name, user_id ?? userId,
normalizeTimestamp(timestamp ?? created_at ?? createdAt), JSON.stringify(e). -/
def rowOfEvent (pd : String → Option String) (e : JsEvent) : Row :=
  { id := e.id.getD ""
  , event_name := ((e.event_name.orElse fun _ => e.type).orElse fun _ => e.name).getD ""
  , user_id := (e.user_id.orElse fun _ => e.userId).getD ""
  , timestamp := normalizeTimestamp pd ((e.timestamp.orElse fun _ => e.created_at).orElse fun _ => e.createdAt)
  , raw := e.stringified }

/-- A character that needs no COPY-text escaping. -/
def cleanChar (c : Char) : Bool := !(c == '\\' || c == '\n' || c == '\t' || c == '\r')

/-- A string free of COPY-special characters. -/
def cleanStr (s : String) : Bool := s.data.all cleanChar

/-- The real JS Date.toISOString never emits tab, newline, carriage return or
backslash; this is the corresponding condition on the abstracted parser. -/
def TsClean (pd : String → Option String) : Prop := ∀ s t, pd s = some t → cleanStr t = true

/-- Date parser that rejects everything (used to instantiate witnesses). -/
def parseNone : String → Option String := fun _ => none

/-! ## COPY serialization (db.ts lines 80-86, 102-112) -/

/-- One pass of JS String.replace with a global single-character pattern. -/
def replaceChar (c : Char) (rep : List Char) : List Char → List Char
  | [] => []
  | x :: xs => (if x = c then rep else [x]) ++ replaceChar c rep xs

/-- escapeForCopy from db.ts: chained global replaces, backslash first. -/
def escapeForCopy (s : List Char) : List Char :=
  replaceChar '\t' ['\\', 't'] (replaceChar '\r' ['\\', 'r'] (replaceChar '\n' ['\\', 'n'] (replaceChar '\\' ['\\', '\\'] s)))

/-- Per-character view of escapeForCopy (proved equal below). -/
def escChar (x : Char) : List Char :=
  if x = '\\' then ['\\', '\\']
  else if x = '\n' then ['\\', 'n']
  else if x = '\r' then ['\\', 'r']
  else if x = '\t' then ['\\', 't']
  else [x]

/-- Backslash-escape decoding of the Postgres COPY text reader. -/
def unescChar (c : Char) : Char :=
  if c = 'n' then '\n'
  else if c = 'r' then '\r'
  else if c = 't' then '\t'
  else if c = 'b' then '\x08'
  else if c = 'f' then '\x0C'
  else if c = 'v' then '\x0B'
  else c

/-- Postgres COPY ... FROM STDIN (FORMAT text) reader: tab separates fields,
newline separates rows, backslash escapes. Accumulates the current field and
the fields of the current row. -/
def parseCopyGo : List Char → List Char → List (List Char) → List (List (List Char))
  | [], field, row => if field = [] ∧ row = [] then [] else [row ++ [field]]
  | x :: rest, field, row =>
    if x = '\\' then
      match rest with
      | [] => [row ++ [field ++ ['\\']]]
      | c :: rest2 => parseCopyGo rest2 (field ++ [unescChar c]) row
    else if x = '\n' then (row ++ [field]) :: parseCopyGo rest [] []
    else if x = '\t' then parseCopyGo rest [] (row ++ [field])
    else parseCopyGo rest (field ++ [x]) row

/-- A parsed COPY line loads into the 5-column staging table only when it has
exactly five fields. -/
def rowOfFields : List (List Char) → Option Row
  | [i, n, u, t, w] => some ⟨⟨i⟩, ⟨n⟩, ⟨u⟩, ⟨t⟩, ⟨w⟩⟩
  | _ => none

/-- Contents of events_staging after the COPY stream consumes data. -/
def stagedRows (data : List Char) : List Row :=
  (parseCopyGo data [] []).filterMap rowOfFields

/-- The five staged fields of a row, in column order. -/
def rowFields (r : Row) : List (List Char) :=
  [r.id.data, r.event_name.data, r.user_id.data, r.timestamp.data, r.raw.data]

/-- One line of the COPY payload (db.ts line 109): id, event_name, user_id
escaped, the normalized timestamp written unescaped, raw escaped. -/
def copyRowLine (r : Row) : List Char :=
  escapeForCopy r.id.data ++ '\t' :: (escapeForCopy r.event_name.data ++ '\t' :: (escapeForCopy r.user_id.data ++ '\t' :: (r.timestamp.data ++ '\t' :: escapeForCopy r.raw.data)))

/-- JS Array.prototype.join with a separator. -/
def joinSep (sep : List Char) : List (List Char) → List Char
  | [] => []
  | [l] => l
  | l :: ls => l ++ sep ++ joinSep sep ls

/-- rows.join(newline) + newline (db.ts line 112). -/
def copyData (rows : List Row) : List Char := joinSep ['\n'] (rows.map copyRowLine) ++ ['\n']

/-- The COPY payload built from a batch of fetched events. -/
def copyDataOf (pd : String → Option String) (events : List JsEvent) : List Char :=
  copyData (events.map (rowOfEvent pd))

/-! ## Fallback chunked insert (db.ts lines 151-182) -/

/-- Splitting a batch into chunks of CHUNK = 500 (db.ts lines 152-156),
structurally recursive on a fuel bounded by the list length so that the
kernel can evaluate it. -/
def fallbackChunksAux : Nat → List JsEvent → List (List JsEvent)
  | 0, _ => []
  | fuel + 1, l => if l = [] then [] else l.take 500 :: fallbackChunksAux fuel (l.drop 500)

/-- Splitting a batch into chunks of CHUNK = 500. -/
def fallbackChunks (l : List JsEvent) : List (List JsEvent) :=
  fallbackChunksAux l.length l

/-- fallbackInsert: per chunk, one multi-row INSERT ... ON CONFLICT (id) DO
NOTHING; the running count adds chunk.length per chunk. Returns the final
table and the returned count. -/
def fallbackInsert (pd : String → Option String) (s : EventStore) (events : List JsEvent) : EventStore × Nat :=
  (fallbackChunks events).foldl
    (fun acc chunk => (insertRows acc.1 (chunk.map (rowOfEvent pd)), acc.2 + chunk.length))
    (s, 0)

/-! ## Primary staged path as a transaction (db.ts lines 114-148) -/

/-- The stages of the primary path: BEGIN, CREATE TEMP TABLE ... ON COMMIT
DROP, the COPY stream, the merge INSERT, COMMIT. -/
inductive Stage where
  | beginTx
  | createStaging
  | copyStream
  | mergeInsert
  | commitTx
deriving DecidableEq, Repr

/-- Transaction-level view of the database: the committed events table, the
transient staging table, and the snapshot a rollback would restore. -/
structure TxState where
  events : EventStore
  staging : List Row
  snapshot : Option EventStore
deriving DecidableEq, Repr

/-- Effect of each stage on the transaction state. -/
def execStage (data : List Char) (st : TxState) : Stage → TxState
  | .beginTx => { st with snapshot := some st.events }
  | .createStaging => { st with staging := [] }
  | .copyStream => { st with staging := st.staging ++ stagedRows data }
  | .mergeInsert => { st with events := insertRows st.events st.staging }
  | .commitTx => { st with staging := [], snapshot := none }

/-- The stage sequence of the primary path. -/
def primaryStages : List Stage := [.beginTx, .createStaging, .copyStream, .mergeInsert, .commitTx]

/-- Run a prefix of the primary path. -/
def runStages (data : List Char) (st : TxState) (l : List Stage) : TxState :=
  l.foldl (execStage data) st

/-- ROLLBACK: restore the snapshot and drop the staging table. -/
def rollback (st : TxState) : TxState :=
  match st.snapshot with
  | some s => { events := s, staging := [], snapshot := none }
  | none => st

/-- Result of bulkInsertEvents: the events table, the returned count, and
whether any database access happened. -/
structure BulkResult where
  store : EventStore
  returned : Nat
  touchedDb : Bool
deriving DecidableEq, Repr

/-- bulkInsertEvents from db.ts. failAt = none runs the primary path to
completion; failAt = some k means stage k of the primary path raised, the
first k stages having executed, after which the catch block rolls back and
runs fallbackInsert on the same batch. An empty batch returns 0 before any
database access. -/
def bulkInsertEvents (pd : String → Option String) (failAt : Option Nat) (store : EventStore) (events : List JsEvent) : BulkResult :=
  if events.length = 0 then ⟨store, 0, false⟩
  else
    match failAt with
    | none =>
      ⟨(runStages (copyDataOf pd events) ⟨store, [], none⟩ primaryStages).events, events.length, true⟩
    | some k =>
      let st := rollback (runStages (copyDataOf pd events) ⟨store, [], none⟩ (primaryStages.take k))
      let fb := fallbackInsert pd st.events events
      ⟨fb.1, fb.2, true⟩

/-! ## Checkpoint state and worker.ts -/

/-- The singleton ingestion_state row. -/
structure IngestionState where
  next_cursor : Option String
  total_processed : Nat
deriving DecidableEq, Repr

/-- The persistent store: events table plus checkpoint row. -/
structure Db where
  events : EventStore
  state : IngestionState
deriving DecidableEq, Repr

/-- saveProgress from db.ts: overwrite the cursor and add count to
total_processed. -/
def saveProgress (db : Db) (cursor : Option String) (count : Nat) : Db :=
  { db with state := { next_cursor := cursor, total_processed := db.state.total_processed + count } }

/-- processBatch from worker.ts: insert the batch then checkpoint with
increment events.length. -/
def processBatch (pd : String → Option String) (db : Db) (events : List JsEvent) (nextCursor : Option String) : Db :=
  if events.length = 0 then db
  else
    let r := bulkInsertEvents pd none db.events events
    saveProgress { db with events := r.store } nextCursor events.length

/-! ## fetchEvents with an explicit clock (api.ts, part_000) -/

/-- A tolerant-shape response body: every field the probing chain of
fetchEvents may read (lines 53-65), flattened. -/
structure ApiBody where
  data : Option (List JsEvent)
  events : Option (List JsEvent)
  nextCursor : Option String
  next_cursor : Option String
  pagNextCursor : Option String
  pagNext_cursor : Option String
  hasMore : Option Bool
  has_more : Option Bool
  pagHasMore : Option Bool
  pagHas_more : Option Bool
deriving DecidableEq, Repr

/-- The parsed result fetchEvents returns. -/
structure EventsResponse where
  data : List JsEvent
  hasMore : Bool
  nextCursor : Option String
deriving DecidableEq, Repr

/-- The shape-probing of fetchEvents lines 53-65: coalescing chains, and
hasMore defaults to (nextCursor != null). -/
def parseBody (b : ApiBody) : EventsResponse :=
  let d := (b.data.orElse fun _ => b.events).getD []
  let nc := ((b.nextCursor.orElse fun _ => b.next_cursor).orElse fun _ => b.pagNextCursor).orElse fun _ => b.pagNext_cursor
  let hm := (((b.hasMore.orElse fun _ => b.has_more).orElse fun _ => b.pagHasMore).orElse fun _ => b.pagHas_more).getD nc.isSome
  ⟨d, hm, nc⟩

/-- An all-absent body. -/
def body0 : ApiBody := ⟨none, none, none, none, none, none, none, none, none, none⟩

/-- What one HTTP attempt produces: a body, a response with a status (and a
possible numeric retry-after header), or no response at all. -/
inductive Outcome where
  | ok (body : ApiBody)
  | httpErr (status : Nat) (retryAfter : Option Int)
  | noResponse
deriving DecidableEq, Repr

/-- One scripted attempt: its duration in ms from request start to outcome,
and the outcome. -/
structure Attempt where
  dur : Int
  outcome : Outcome
deriving DecidableEq, Repr

/-- The module clock of api.ts: current Date.now() and the lastRequestTime
variable. Sleeps advance now by exactly the slept amount; no other time
passes. -/
structure Clock where
  now : Int
  last : Int
deriving DecidableEq, Repr

/-- Start time of the next request as issued by throttledRequest (lines
19-25): if less than minDelay elapsed since lastRequestTime, sleep the
remainder; the request starts when lastRequestTime is reset. -/
def throttleStart (minDelay : Int) (clk : Clock) : Int :=
  if clk.now - clk.last < minDelay then clk.now + (minDelay - (clk.now - clk.last)) else clk.now

/-- Result of a fetchEvents run over a finite script. -/
inductive FetchRes where
  | ok (r : EventsResponse)
  | badCursor (cursor : Option String)
  | fatal (status : Nat)
  | outOfScript
deriving DecidableEq, Repr

/-- The retry loop of fetchEvents (lines 46-97) over a script of attempt
outcomes. Returns the result, the final clock, the list of issued requests as
(cursor, start-time) pairs, and the list of transient backoff sleeps in ms.
429: sleep retryAfter seconds (default 10) and set lastRequestTime to
Date.now() + retryAfter*1000. 400: throw BAD_CURSOR with the cursor. 504 or
no response: sleep min(1000 * 2^retries, 16000) and increment retries. Any
other status: throw. The cursor argument never changes across attempts. -/
def fetchGo (minDelay : Int) (cursor : Option String) :
    Nat → Clock → List Attempt → FetchRes × Clock × List (Option String × Int) × List Int
  | _, clk, [] => (.outOfScript, clk, [], [])
  | retries, clk, a :: rest =>
    let start := throttleStart minDelay clk
    let clk1 : Clock := ⟨start + a.dur, start⟩
    match a.outcome with
    | .ok body => (.ok (parseBody body), clk1, [(cursor, start)], [])
    | .noResponse =>
      let w := min (1000 * 2 ^ retries) 16000
      let out := fetchGo minDelay cursor (retries + 1) ⟨clk1.now + w, clk1.last⟩ rest
      (out.1, out.2.1, (cursor, start) :: out.2.2.1, w :: out.2.2.2)
    | .httpErr status ra =>
      if status = 429 then
        let w := ra.getD 10 * 1000
        let out := fetchGo minDelay cursor retries ⟨clk1.now + w, clk1.now + w + w⟩ rest
        (out.1, out.2.1, (cursor, start) :: out.2.2.1, out.2.2.2)
      else if status = 400 then
        (.badCursor cursor, clk1, [(cursor, start)], [])
      else if status = 504 then
        let w := min (1000 * 2 ^ retries) 16000
        let out := fetchGo minDelay cursor (retries + 1) ⟨clk1.now + w, clk1.last⟩ rest
        (out.1, out.2.1, (cursor, start) :: out.2.2.1, w :: out.2.2.2)
      else
        (.fatal status, clk1, [(cursor, start)], [])

/-- fetchEvents: the loop starts with retries = 0. -/
def fetchEvents (minDelay : Int) (cursor : Option String) (clk : Clock) (script : List Attempt) :
    FetchRes × Clock × List (Option String × Int) × List Int :=
  fetchGo minDelay cursor 0 clk script

/-- The result component of a run. -/
def resOf (x : FetchRes × Clock × List (Option String × Int) × List Int) : FetchRes := x.1

/-- The requests (cursor, start time) issued during a run. -/
def reqsOf (x : FetchRes × Clock × List (Option String × Int) × List Int) :
    List (Option String × Int) := x.2.2.1

/-- The transient backoff sleeps of a run. -/
def backoffsOf (x : FetchRes × Clock × List (Option String × Int) × List Int) : List Int := x.2.2.2

/-- Well-formedness of a scripted attempt: nonnegative duration, and a
nonnegative retry-after value where one applies. -/
def attemptWf (a : Attempt) : Bool :=
  decide (0 ≤ a.dur) &&
    match a.outcome with
    | .httpErr _ ra => decide (0 ≤ ra.getD 10)
    | _ => true

/-- A transient attempt: duration plus a flag choosing 504 versus
no-response. -/
def transientAttempt : Int × Bool → Attempt
  | (d, true) => ⟨d, .httpErr 504 none⟩
  | (d, false) => ⟨d, .noResponse⟩

/-- Default MIN_DELAY_MS. -/
def MIN_DELAY_MS : Int := 500

/-! ## The fetcher loop of runIngestion as an action trace (part_001, lines 66-105) -/

/-- What one fetchEvents call looks like from the fetcher loop: a page, a
BAD_CURSOR error, or any other error. -/
inductive FetchResult where
  | page (events : List JsEvent) (nextCursor : Option String) (hasMore : Bool)
  | badCursor
  | otherErr
deriving DecidableEq, Repr

/-- Observable actions of the fetcher loop. -/
inductive FAct where
  | fetchReq (c : Option String)
  | fsleep (ms : Nat)
  | pushWrite (events : List JsEvent) (cursor : Option String)
  | fetchComplete
  | pollIdle
deriving DecidableEq, Repr

/-- JS truthiness of res.nextCursor in the condition on line 83. -/
def ncTruthy : Option String → Bool
  | none => false
  | some s => !(s == "")

/-- The fetcher loop, driven by a script of fetchEvents results, with the
fetch queue and the lastCursor variable as state. On a page: push nonempty
batches to the write queue, then either enqueue the next cursor or declare
fetching complete. On BAD_CURSOR: reset lastCursor, enqueue the initial
(no-cursor) request, sleep 5000. On any other error: re-enqueue the same
cursor when it is defined and sleep 3000. An empty queue with fetching not
complete polls forever (pollIdle marker). -/
def fetcherGo : List FetchResult → List (Option String) → Option String → List FAct
  | _, [], _ => [.pollIdle]
  | [], _ :: _, _ => []
  | res :: srest, c :: qrest, lastCursor =>
    .fetchReq c ::
      match res with
      | .page evs nc hm =>
        let ws := if evs.length > 0 then [FAct.pushWrite evs nc] else []
        if hm && ncTruthy nc then ws ++ fetcherGo srest (qrest ++ [nc]) nc
        else ws ++ [.fetchComplete]
      | .badCursor => .fsleep 5000 :: fetcherGo srest (qrest ++ [none]) none
      | .otherErr => .fsleep 3000 :: fetcherGo srest (qrest ++ (if c.isSome then [c] else [])) lastCursor

/-- Actions of the top-level process around runIngestion. -/
inductive ProcAction where
  | logErr
  | saveProgressAct (cursor : Option String) (inc : Nat)
  | exitProc (code : Nat)
deriving DecidableEq, Repr

/-- The catch handler of runIngestion (part_001 lines 145-148): log the error
and exit with code 1. -/
def fatalHandlerActions : List ProcAction := [.logErr, .exitProc 1]

/-- Whether a process action is a checkpoint write. -/
def isSaveAct : ProcAction → Bool
  | .saveProgressAct _ _ => true
  | _ => false

/-! ## The whole pipeline as a schedulable small-step machine (part_001, lines 45-143) -/

/-- In-memory state of runIngestion: the database, the two queues, the
completion flag, the shared lastCursor, the stats total, the remaining fetch
script, and per-loop done flags. -/
structure PipeSt where
  db : Db
  fetchQueue : List (Option String)
  writeQueue : List (List JsEvent × Option String)
  allFetched : Bool
  lastCursor : Option String
  statsTotal : Nat
  fetchScript : List FetchResult
  fetcherDone : Bool
  writerDone : Bool
deriving Repr

/-- One iteration of the fetcher loop (lines 66-105). -/
def fetchStep (st : PipeSt) : PipeSt :=
  if st.fetcherDone then st
  else
    match st.fetchQueue with
    | [] => if st.allFetched then { st with fetcherDone := true } else st
    | c :: qrest =>
      match st.fetchScript with
      | [] => st
      | res :: srest =>
        let st1 := { st with fetchQueue := qrest, fetchScript := srest }
        match res with
        | .page evs nc hm =>
          let st2 :=
            if evs.length > 0 then { st1 with writeQueue := st1.writeQueue ++ [(evs, nc)] } else st1
          if hm && ncTruthy nc then { st2 with lastCursor := nc, fetchQueue := st2.fetchQueue ++ [nc] }
          else { st2 with allFetched := true, fetcherDone := true }
        | .badCursor => { st1 with lastCursor := none, fetchQueue := st1.fetchQueue ++ [none] }
        | .otherErr => { st1 with fetchQueue := st1.fetchQueue ++ (if c.isSome then [c] else []) }

/-- One iteration of the writer loop (lines 107-129): pop a batch, insert it,
update the stats, and checkpoint with increment 0 when
stats.total % 5000 < batch.events.length. -/
def writeStep (pd : String → Option String) (st : PipeSt) : PipeSt :=
  if st.writerDone then st
  else
    match st.writeQueue with
    | [] => if st.allFetched then { st with writerDone := true } else st
    | (evs, _) :: qrest =>
      let r := bulkInsertEvents pd none st.db.events evs
      let newTotal := st.statsTotal + evs.length
      let st1 := { st with writeQueue := qrest, db := { st.db with events := r.store }, statsTotal := newTotal }
      if newTotal % 5000 < evs.length then { st1 with db := saveProgress st1.db st1.lastCursor 0 } else st1

/-- Run the two loops under an explicit schedule: true steps the fetcher,
false steps the writer. -/
def runPipe (pd : String → Option String) : List Bool → PipeSt → PipeSt
  | [], st => st
  | b :: bs, st => runPipe pd bs (if b then fetchStep st else writeStep pd st)

/-- Observable outcome of a completed runIngestion. -/
structure PipeResult where
  db : Db
  exitCode : Nat
deriving DecidableEq, Repr

/-- runIngestion (lines 45-143): resume from the checkpoint row, run the two
loops, and on joint completion perform the final saveProgress(lastCursor, 0)
and exit 0. A schedule that does not finish both loops yields none (the
process is still running). -/
def runIngestion (pd : String → Option String) (db : Db) (script : List FetchResult) (sched : List Bool) :
    Option PipeResult :=
  let resumeCursor := db.state.next_cursor
  let st0 : PipeSt :=
    { db := db, fetchQueue := [resumeCursor], writeQueue := [], allFetched := false
    , lastCursor := resumeCursor, statsTotal := db.state.total_processed
    , fetchScript := script, fetcherDone := false, writerDone := false }
  let stF := runPipe pd sched st0
  if stF.fetcherDone ∧ stF.writerDone then
    some ⟨saveProgress stF.db stF.lastCursor 0, 0⟩
  else none

/-- An event carrying only an id, as in the spec scenarios. -/
def mkEvent (i : String) : JsEvent :=
  ⟨some i, none, none, none, none, none, none, none, none, "raw:" ++ i⟩

/-! ## Lemmas about keyed insertion -/

theorem hasId_append (s t : EventStore) (i : String) :
    hasId (s ++ t) i = (hasId s i || hasId t i) := by
  simp [hasId, List.any_append]

theorem hasId_insertRow_self (s : EventStore) (r : Row) : hasId (insertRow s r) r.id = true := by
  unfold insertRow
  by_cases h : hasId s r.id = true
  · rw [if_pos h]
    exact h
  · rw [if_neg h, hasId_append]
    simp [hasId]

theorem hasId_insertRow_mono (s : EventStore) (r : Row) (i : String) (h : hasId s i = true) :
    hasId (insertRow s r) i = true := by
  unfold insertRow
  by_cases hr : hasId s r.id = true
  · rw [if_pos hr]
    exact h
  · rw [if_neg hr, hasId_append, h]
    rfl

theorem hasId_insertRows_mono (s : EventStore) (rs : List Row) (i : String) (h : hasId s i = true) :
    hasId (insertRows s rs) i = true := by
  induction rs generalizing s with
  | nil => exact h
  | cons a t ih => exact ih (insertRow s a) (hasId_insertRow_mono s a i h)

theorem hasId_insertRows_mem (s : EventStore) (rs : List Row) (r : Row) (h : r ∈ rs) :
    hasId (insertRows s rs) r.id = true := by
  induction rs generalizing s with
  | nil => cases h
  | cons a t ih =>
    rcases List.mem_cons.mp h with h1 | h2
    · subst h1
      exact hasId_insertRows_mono (insertRow s r) t r.id (hasId_insertRow_self s r)
    · exact ih (insertRow s a) h2

theorem insertRow_of_present (s : EventStore) (r : Row) (h : hasId s r.id = true) :
    insertRow s r = s := by
  unfold insertRow
  simp [h]

theorem insertRows_of_all_present (s : EventStore) (rs : List Row)
    (h : ∀ r ∈ rs, hasId s r.id = true) : insertRows s rs = s := by
  induction rs generalizing s with
  | nil => rfl
  | cons a t ih =>
    have ha : insertRow s a = s := insertRow_of_present s a (h a (List.mem_cons_self a t))
    show insertRows (insertRow s a) t = s
    rw [ha]
    exact ih s fun r hr => h r (List.mem_cons_of_mem a hr)

theorem insertRows_idem (s : EventStore) (rs : List Row) :
    insertRows (insertRows s rs) rs = insertRows s rs :=
  insertRows_of_all_present (insertRows s rs) rs fun r hr => hasId_insertRows_mem s rs r hr

theorem insertRows_append (s : EventStore) (a b : List Row) :
    insertRows s (a ++ b) = insertRows (insertRows s a) b :=
  List.foldl_append insertRow s a b

/-! ## Lemmas about the fallback chunking -/

theorem fallbackChunksAux_join (fuel : Nat) :
    ∀ l : List JsEvent, l.length ≤ fuel → (fallbackChunksAux fuel l).flatten = l := by
  induction fuel with
  | zero =>
    intro l h
    have : l = [] := List.eq_nil_of_length_eq_zero (Nat.le_zero.mp h)
    subst this
    rfl
  | succ n ih =>
    intro l h
    by_cases hl : l = []
    · subst hl
      simp [fallbackChunksAux]
    · have hpos : 0 < l.length := List.length_pos.mpr hl
      have hdrop : (l.drop 500).length ≤ n := by
        simp only [List.length_drop]
        omega
      simp only [fallbackChunksAux, if_neg hl, List.flatten_cons]
      rw [ih (l.drop 500) hdrop]
      exact List.take_append_drop 500 l

theorem fallbackChunks_join (l : List JsEvent) : (fallbackChunks l).flatten = l :=
  fallbackChunksAux_join l.length l le_rfl

theorem fallbackInsert_foldl (pd : String → Option String) (chunks : List (List JsEvent)) :
    ∀ (s : EventStore) (n : Nat),
      chunks.foldl (fun acc chunk => (insertRows acc.1 (chunk.map (rowOfEvent pd)), acc.2 + chunk.length)) (s, n)
        = (insertRows s (chunks.flatten.map (rowOfEvent pd)), n + chunks.flatten.length) := by
  induction chunks with
  | nil => intro s n; simp [insertRows]
  | cons c t ih =>
    intro s n
    simp only [List.foldl_cons, List.flatten_cons, List.map_append, List.length_append]
    rw [ih (insertRows s (c.map (rowOfEvent pd))) (n + c.length), insertRows_append]
    simp only [Prod.mk.injEq, true_and]
    omega

theorem fallbackInsert_eq (pd : String → Option String) (s : EventStore) (events : List JsEvent) :
    fallbackInsert pd s events = (insertRows s (events.map (rowOfEvent pd)), events.length) := by
  unfold fallbackInsert
  rw [fallbackInsert_foldl pd (fallbackChunks events) s 0, fallbackChunks_join]
  simp

/-! ## The COPY round trip -/

theorem replaceChar_append (c : Char) (rep : List Char) (a b : List Char) :
    replaceChar c rep (a ++ b) = replaceChar c rep a ++ replaceChar c rep b := by
  induction a with
  | nil => rfl
  | cons x xs ih => simp [replaceChar, ih, List.append_assoc]

theorem escapeForCopy_nil : escapeForCopy [] = [] := rfl

theorem escapeForCopy_cons (x : Char) (xs : List Char) :
    escapeForCopy (x :: xs) = escChar x ++ escapeForCopy xs := by
  by_cases h1 : x = '\\'
  · subst h1
    simp [escapeForCopy, escChar, replaceChar, replaceChar_append]
  · by_cases h2 : x = '\n'
    · subst h2
      simp [escapeForCopy, escChar, replaceChar, replaceChar_append]
    · by_cases h3 : x = '\r'
      · subst h3
        simp [escapeForCopy, escChar, replaceChar, replaceChar_append]
      · by_cases h4 : x = '\t'
        · subst h4
          simp [escapeForCopy, escChar, replaceChar, replaceChar_append]
        · simp [escapeForCopy, escChar, replaceChar, replaceChar_append, h1, h2, h3, h4]

theorem cleanChar_spec (x : Char) (h : cleanChar x = true) :
    x ≠ '\\' ∧ x ≠ '\n' ∧ x ≠ '\t' ∧ x ≠ '\r' := by
  simp only [cleanChar, Bool.not_eq_true', Bool.or_eq_false_iff, beq_eq_false_iff_ne, ne_eq] at h
  refine ⟨?_, ?_, ?_, ?_⟩ <;> tauto

theorem escapeForCopy_clean (s : List Char) (h : s.all cleanChar = true) :
    escapeForCopy s = s := by
  induction s with
  | nil => rfl
  | cons x xs ih =>
    simp only [List.all_cons, Bool.and_eq_true] at h
    obtain ⟨hx1, hx2, hx3, hx4⟩ := cleanChar_spec x h.1
    rw [escapeForCopy_cons, ih h.2]
    simp [escChar, hx1, hx2, hx3, hx4]

theorem parseCopyGo_esc_step (c : Char) (rest field : List Char) (row : List (List Char)) :
    parseCopyGo ('\\' :: c :: rest) field row = parseCopyGo rest (field ++ [unescChar c]) row := by
  rw [parseCopyGo.eq_def]
  simp

theorem parseCopyGo_other (x : Char) (rest field : List Char) (row : List (List Char))
    (h1 : x ≠ '\\') (h2 : x ≠ '\n') (h4 : x ≠ '\t') :
    parseCopyGo (x :: rest) field row = parseCopyGo rest (field ++ [x]) row := by
  rw [parseCopyGo.eq_def]
  simp [h1, h2, h4]

theorem parseCopyGo_tab (rest field : List Char) (row : List (List Char)) :
    parseCopyGo ('\t' :: rest) field row = parseCopyGo rest [] (row ++ [field]) := by
  rw [parseCopyGo.eq_def]
  simp

theorem parseCopyGo_newline (rest field : List Char) (row : List (List Char)) :
    parseCopyGo ('\n' :: rest) field row = (row ++ [field]) :: parseCopyGo rest [] [] := by
  rw [parseCopyGo.eq_def]
  simp

theorem parseCopyGo_escape (f : List Char) :
    ∀ (rest field : List Char) (row : List (List Char)),
      parseCopyGo (escapeForCopy f ++ rest) field row = parseCopyGo rest (field ++ f) row := by
  induction f with
  | nil =>
    intro rest field row
    simp [escapeForCopy_nil]
  | cons x xs ih =>
    intro rest field row
    rw [escapeForCopy_cons, List.append_assoc]
    by_cases h1 : x = '\\'
    · subst h1
      rw [show escChar '\\' = ['\\', '\\'] from rfl]
      rw [show ('\\' :: ['\\']) ++ (escapeForCopy xs ++ rest) = '\\' :: '\\' :: (escapeForCopy xs ++ rest) from rfl]
      rw [parseCopyGo_esc_step, show unescChar '\\' = '\\' from rfl, ih rest (field ++ ['\\']) row]
      simp
    · by_cases h2 : x = '\n'
      · subst h2
        rw [show escChar '\n' = ['\\', 'n'] from rfl]
        rw [show ('\\' :: ['n']) ++ (escapeForCopy xs ++ rest) = '\\' :: 'n' :: (escapeForCopy xs ++ rest) from rfl]
        rw [parseCopyGo_esc_step, show unescChar 'n' = '\n' from rfl, ih rest (field ++ ['\n']) row]
        simp
      · by_cases h3 : x = '\r'
        · subst h3
          rw [show escChar '\r' = ['\\', 'r'] from rfl]
          rw [show ('\\' :: ['r']) ++ (escapeForCopy xs ++ rest) = '\\' :: 'r' :: (escapeForCopy xs ++ rest) from rfl]
          rw [parseCopyGo_esc_step, show unescChar 'r' = '\r' from rfl, ih rest (field ++ ['\r']) row]
          simp
        · by_cases h4 : x = '\t'
          · subst h4
            rw [show escChar '\t' = ['\\', 't'] from rfl]
            rw [show ('\\' :: ['t']) ++ (escapeForCopy xs ++ rest) = '\\' :: 't' :: (escapeForCopy xs ++ rest) from rfl]
            rw [parseCopyGo_esc_step, show unescChar 't' = '\t' from rfl, ih rest (field ++ ['\t']) row]
            simp
          · rw [show escChar x = [x] by simp [escChar, h1, h2, h3, h4], List.singleton_append]
            rw [parseCopyGo_other x (escapeForCopy xs ++ rest) field row h1 h2 h4]
            rw [ih rest (field ++ [x]) row]
            simp

theorem parseCopyGo_clean (f : List Char) (h : f.all cleanChar = true)
    (rest field : List Char) (row : List (List Char)) :
    parseCopyGo (f ++ rest) field row = parseCopyGo rest (field ++ f) row := by
  have h2 := parseCopyGo_escape f rest field row
  rw [escapeForCopy_clean f h] at h2
  exact h2

theorem parseCopyGo_line (r : Row) (hts : cleanStr r.timestamp = true) (rest : List Char) :
    parseCopyGo (copyRowLine r ++ '\n' :: rest) [] [] = rowFields r :: parseCopyGo rest [] [] := by
  unfold copyRowLine
  simp only [List.append_assoc, List.cons_append]
  rw [parseCopyGo_escape, List.nil_append, parseCopyGo_tab]
  rw [parseCopyGo_escape, List.nil_append, parseCopyGo_tab]
  rw [parseCopyGo_escape, List.nil_append, parseCopyGo_tab]
  rw [parseCopyGo_clean r.timestamp.data hts, List.nil_append, parseCopyGo_tab]
  rw [parseCopyGo_escape, List.nil_append, parseCopyGo_newline]
  rfl

theorem rowOfFields_rowFields (r : Row) : rowOfFields (rowFields r) = some r := rfl

theorem stagedRows_copyData (rows : List Row) (hts : ∀ r ∈ rows, cleanStr r.timestamp = true) :
    stagedRows (copyData rows) = rows := by
  induction rows with
  | nil => rfl
  | cons r rs ih =>
    unfold stagedRows copyData
    cases rs with
    | nil =>
      rw [show joinSep ['\n'] ([r].map copyRowLine) ++ ['\n'] = copyRowLine r ++ '\n' :: [] by
        simp [joinSep]]
      rw [parseCopyGo_line r (hts r (List.mem_cons_self r [])) []]
      simp [List.filterMap_cons, rowOfFields_rowFields, parseCopyGo]
    | cons r2 rs2 =>
      rw [show joinSep ['\n'] ((r :: r2 :: rs2).map copyRowLine) ++ ['\n']
            = copyRowLine r ++ '\n' :: (joinSep ['\n'] ((r2 :: rs2).map copyRowLine) ++ ['\n']) by
        simp [joinSep, List.append_assoc]]
      rw [parseCopyGo_line r (hts r (List.mem_cons_self r (r2 :: rs2)))]
      rw [List.filterMap_cons, rowOfFields_rowFields]
      have ih2 := ih fun x hx => hts x (List.mem_cons_of_mem r hx)
      unfold stagedRows copyData at ih2
      rw [ih2]

/-! ## Clean timestamps and the two insert paths -/

theorem TsClean_parseNone : TsClean parseNone := fun _ _ hp => nomatch hp

theorem cleanStr_normalizeTimestamp (pd : String → Option String) (h : TsClean pd)
    (ts : Option String) : cleanStr (normalizeTimestamp pd ts) = true := by
  cases ts with
  | none =>
    show cleanStr epochISO = true
    decide
  | some s =>
    show cleanStr (if s = "" then epochISO else match pd s with | some t => t | none => epochISO) = true
    by_cases hs : s = ""
    · rw [if_pos hs]
      decide
    · rw [if_neg hs]
      cases hp : pd s with
      | none =>
        simp only [hp]
        decide
      | some t =>
        simp only [hp]
        exact h s t hp

theorem cleanTs_rowOfEvent (pd : String → Option String) (h : TsClean pd) (e : JsEvent) :
    cleanStr (rowOfEvent pd e).timestamp = true :=
  cleanStr_normalizeTimestamp pd h _

theorem stagedRows_copyDataOf (pd : String → Option String) (h : TsClean pd)
    (events : List JsEvent) :
    stagedRows (copyDataOf pd events) = events.map (rowOfEvent pd) := by
  unfold copyDataOf
  apply stagedRows_copyData
  intro r hr
  obtain ⟨e, _, rfl⟩ := List.mem_map.mp hr
  exact cleanTs_rowOfEvent pd h e

theorem runStages_primary (data : List Char) (s : EventStore) :
    runStages data ⟨s, [], none⟩ primaryStages = ⟨insertRows s (stagedRows data), [], none⟩ := rfl

theorem rollback_take (data : List Char) (s : EventStore) (k : Nat) (hk : k ≤ 4) :
    (rollback (runStages data ⟨s, [], none⟩ (primaryStages.take k))).events = s := by
  interval_cases k <;> rfl

theorem bulkInsertEvents_store (pd : String → Option String) (h : TsClean pd)
    (failAt : Option Nat) (s : EventStore) (events : List JsEvent) :
    (bulkInsertEvents pd failAt s events).store = insertRows s (events.map (rowOfEvent pd)) := by
  unfold bulkInsertEvents
  by_cases he : events.length = 0
  · rw [if_pos he]
    have : events = [] := List.eq_nil_of_length_eq_zero he
    subst this
    rfl
  · rw [if_neg he]
    cases failAt with
    | none =>
      show (runStages (copyDataOf pd events) ⟨s, [], none⟩ primaryStages).events = _
      rw [runStages_primary, stagedRows_copyDataOf pd h]
    | some k =>
      show (fallbackInsert pd
          (rollback (runStages (copyDataOf pd events) ⟨s, [], none⟩ (primaryStages.take k))).events
          events).1 = _
      by_cases hk : k ≤ 4
      · rw [rollback_take (copyDataOf pd events) s k hk, fallbackInsert_eq]
      · have hlen : primaryStages.length ≤ k := by
          simp only [primaryStages, List.length_cons, List.length_nil]
          omega
        rw [List.take_of_length_le hlen, runStages_primary]
        rw [show rollback ⟨insertRows s (stagedRows (copyDataOf pd events)), [], none⟩
              = ⟨insertRows s (stagedRows (copyDataOf pd events)), [], none⟩ from rfl]
        rw [fallbackInsert_eq]
        rw [stagedRows_copyDataOf pd h]
        exact insertRows_idem s _

theorem bulkInsertEvents_returned (pd : String → Option String) (failAt : Option Nat)
    (s : EventStore) (events : List JsEvent) :
    (bulkInsertEvents pd failAt s events).returned = events.length := by
  unfold bulkInsertEvents
  by_cases he : events.length = 0
  · rw [if_pos he]
    exact he.symm
  · rw [if_neg he]
    cases failAt with
    | none => rfl
    | some k =>
      show (fallbackInsert pd _ events).2 = _
      rw [fallbackInsert_eq]

/-! ## Claim theorems: persistence layer -/

/-- C6: for every batch of events and every prior state of the events store,
running insertBatch (bulkInsertEvents) on the batch twice yields the same
final events-table contents as running it once — idempotence under the event
id key. The two runs may each take the primary path or any failure-plus-
fallback combination; TsClean is the guarantee of JS Date.toISOString that
normalized timestamps contain no COPY-special character. -/
theorem C6_insertBatch_idempotent (pd : String → Option String) (h : TsClean pd)
    (f1 f2 : Option Nat) (s : EventStore) (events : List JsEvent) :
    (bulkInsertEvents pd f2 (bulkInsertEvents pd f1 s events).store events).store
      = (bulkInsertEvents pd f1 s events).store := by
  rw [bulkInsertEvents_store pd h f2, bulkInsertEvents_store pd h f1]
  exact insertRows_idem s _

/-- Witness for C6 at a concrete input: a primary-path run followed by a
failed-primary-plus-fallback run of the same one-event batch. -/
theorem C6_insertBatch_idempotent_witness :
    (bulkInsertEvents parseNone (some 2) (bulkInsertEvents parseNone none [] [mkEvent "a"]).store [mkEvent "a"]).store
      = (bulkInsertEvents parseNone none [] [mkEvent "a"]).store :=
  C6_insertBatch_idempotent parseNone TsClean_parseNone none (some 2) [] [mkEvent "a"]

/-- C7: the primary staged bulk-copy path and the fallback chunked-insert
path produce the same final events-table state on every store and batch, and
that common state is exactly insert-if-absent of the extracted rows in order
(present ids skipped, unseen ids appended). -/
theorem C7_paths_equivalent (pd : String → Option String) (h : TsClean pd)
    (s : EventStore) (events : List JsEvent) :
    (runStages (copyDataOf pd events) ⟨s, [], none⟩ primaryStages).events
        = (fallbackInsert pd s events).1
    ∧ (fallbackInsert pd s events).1 = insertRows s (events.map (rowOfEvent pd)) := by
  rw [runStages_primary, stagedRows_copyDataOf pd h, fallbackInsert_eq]
  exact ⟨rfl, rfl⟩

/-- Witness for C7 at a concrete input: a two-event batch over a store that
already holds one of the two ids. -/
theorem C7_paths_equivalent_witness :
    (runStages (copyDataOf parseNone [mkEvent "a", mkEvent "b"]) ⟨[rowOfEvent parseNone (mkEvent "a")], [], none⟩ primaryStages).events
        = (fallbackInsert parseNone [rowOfEvent parseNone (mkEvent "a")] [mkEvent "a", mkEvent "b"]).1
    ∧ (fallbackInsert parseNone [rowOfEvent parseNone (mkEvent "a")] [mkEvent "a", mkEvent "b"]).1
        = insertRows [rowOfEvent parseNone (mkEvent "a")] ([mkEvent "a", mkEvent "b"].map (rowOfEvent parseNone)) :=
  C7_paths_equivalent parseNone TsClean_parseNone [rowOfEvent parseNone (mkEvent "a")] [mkEvent "a", mkEvent "b"]

/-- C8: if the primary staged path fails at any of its stages (BEGIN, CREATE
TEMP TABLE, the COPY stream, the merge INSERT, or COMMIT itself — k stages
completed, k at most 4), the rollback leaves the permanent events table
exactly as it was, and bulkInsertEvents then equals the fallback chunked
insert run on the same batch against the original table. -/
theorem C8_rollback_then_fallback (pd : String → Option String) (k : Nat) (hk : k ≤ 4)
    (s : EventStore) (events : List JsEvent) (hne : events ≠ []) :
    (rollback (runStages (copyDataOf pd events) ⟨s, [], none⟩ (primaryStages.take k))).events = s
    ∧ bulkInsertEvents pd (some k) s events
        = ⟨(fallbackInsert pd s events).1, (fallbackInsert pd s events).2, true⟩ := by
  have h1 := rollback_take (copyDataOf pd events) s k hk
  refine ⟨h1, ?_⟩
  unfold bulkInsertEvents
  rw [if_neg (by simpa using hne)]
  show (⟨(fallbackInsert pd (rollback (runStages (copyDataOf pd events) ⟨s, [], none⟩ (primaryStages.take k))).events events).1,
        (fallbackInsert pd (rollback (runStages (copyDataOf pd events) ⟨s, [], none⟩ (primaryStages.take k))).events events).2,
        true⟩ : BulkResult) = _
  rw [h1]

/-- Witness for C8 at a concrete input: failure right after the COPY stream
stage on a one-event batch. -/
theorem C8_rollback_then_fallback_witness :
    (rollback (runStages (copyDataOf parseNone [mkEvent "a"]) ⟨[], [], none⟩ (primaryStages.take 3))).events = []
    ∧ bulkInsertEvents parseNone (some 3) [] [mkEvent "a"]
        = ⟨(fallbackInsert parseNone [] [mkEvent "a"]).1, (fallbackInsert parseNone [] [mkEvent "a"]).2, true⟩ :=
  C8_rollback_then_fallback parseNone 3 (by decide) [] [mkEvent "a"] (by decide)

/-- C10: on every completing path bulkInsertEvents returns the length of the
input batch — 0 for the empty batch, for which it touches no database
connection — and, even when every id of the batch is already present (so the
table is unchanged), it still returns the batch length rather than the
number of newly inserted rows. -/
theorem C10_returns_batch_length (pd : String → Option String) (failAt : Option Nat)
    (s : EventStore) (events : List JsEvent) :
    (bulkInsertEvents pd failAt s events).returned = events.length
    ∧ bulkInsertEvents pd failAt s [] = ⟨s, 0, false⟩
    ∧ (TsClean pd → (∀ e ∈ events, hasId s (rowOfEvent pd e).id = true) →
        (bulkInsertEvents pd failAt s events).store = s) := by
  refine ⟨bulkInsertEvents_returned pd failAt s events, rfl, ?_⟩
  intro h hdup
  rw [bulkInsertEvents_store pd h failAt s events]
  refine insertRows_of_all_present s _ ?_
  intro r hr
  obtain ⟨e, he, rfl⟩ := List.mem_map.mp hr
  exact hdup e he

/-- Witness for C10 at a concrete input: a batch whose only id is already in
the store returns 1 and leaves the store unchanged; the empty batch returns
0 without touching the database. -/
theorem C10_returns_batch_length_witness :
    (bulkInsertEvents parseNone none [rowOfEvent parseNone (mkEvent "a")] [mkEvent "a"]).returned = 1
    ∧ bulkInsertEvents parseNone none [rowOfEvent parseNone (mkEvent "a")] [] = ⟨[rowOfEvent parseNone (mkEvent "a")], 0, false⟩
    ∧ (bulkInsertEvents parseNone none [rowOfEvent parseNone (mkEvent "a")] [mkEvent "a"]).store = [rowOfEvent parseNone (mkEvent "a")] := by
  have h := C10_returns_batch_length parseNone none [rowOfEvent parseNone (mkEvent "a")] [mkEvent "a"]
  exact ⟨h.1, h.2.1, h.2.2 TsClean_parseNone (by decide)⟩

/-! ## Lemmas about the fetch loop clock -/

theorem throttleStart_ge_last (minDelay : Int) (clk : Clock) :
    clk.last + minDelay ≤ throttleStart minDelay clk := by
  unfold throttleStart
  split <;> omega

theorem throttleStart_ge_now (minDelay : Int) (clk : Clock) :
    clk.now ≤ throttleStart minDelay clk := by
  unfold throttleStart
  split <;> omega

theorem fetchGo_head (minDelay : Int) (cursor : Option String) (r : Nat) (clk : Clock)
    (a : Attempt) (rest : List Attempt) :
    ∃ tail, reqsOf (fetchGo minDelay cursor r clk (a :: rest))
        = (cursor, throttleStart minDelay clk) :: tail := by
  obtain ⟨d, outc⟩ := a
  rw [fetchGo.eq_def]
  cases outc with
  | ok body => exact ⟨[], rfl⟩
  | noResponse => exact ⟨_, rfl⟩
  | httpErr status ra =>
    by_cases h429 : status = 429
    · subst h429
      simp only [reqsOf]
      exact ⟨_, rfl⟩
    · by_cases h400 : status = 400
      · subst h400
        simp only [reqsOf]
        exact ⟨[], rfl⟩
      · by_cases h504 : status = 504
        · subst h504
          exact ⟨_, rfl⟩
        · simp only [reqsOf, h429, h400, h504, if_neg]
          exact ⟨[], by simp [h429, h400, h504]⟩


theorem fetchGo_nil (minDelay : Int) (cursor : Option String) (r : Nat) (clk : Clock) :
    fetchGo minDelay cursor r clk [] = (.outOfScript, clk, [], []) := rfl

theorem fetchGo_ok (minDelay : Int) (cursor : Option String) (r : Nat) (clk : Clock)
    (d : Int) (body : ApiBody) (rest : List Attempt) :
    fetchGo minDelay cursor r clk (⟨d, .ok body⟩ :: rest)
      = (.ok (parseBody body), ⟨throttleStart minDelay clk + d, throttleStart minDelay clk⟩,
         [(cursor, throttleStart minDelay clk)], []) := by
  rw [fetchGo.eq_def]

theorem fetchGo_noResponse (minDelay : Int) (cursor : Option String) (r : Nat) (clk : Clock)
    (d : Int) (rest : List Attempt) :
    fetchGo minDelay cursor r clk (⟨d, .noResponse⟩ :: rest)
      = (let start := throttleStart minDelay clk
         let w := min (1000 * 2 ^ r) 16000
         let out := fetchGo minDelay cursor (r + 1) ⟨start + d + w, start⟩ rest
         (out.1, out.2.1, (cursor, start) :: out.2.2.1, w :: out.2.2.2)) := by
  rw [fetchGo.eq_def]

theorem fetchGo_429 (minDelay : Int) (cursor : Option String) (r : Nat) (clk : Clock)
    (d : Int) (ra : Option Int) (rest : List Attempt) :
    fetchGo minDelay cursor r clk (⟨d, .httpErr 429 ra⟩ :: rest)
      = (let start := throttleStart minDelay clk
         let w := ra.getD 10 * 1000
         let out := fetchGo minDelay cursor r ⟨start + d + w, start + d + w + w⟩ rest
         (out.1, out.2.1, (cursor, start) :: out.2.2.1, out.2.2.2)) := by
  rw [fetchGo.eq_def]
  rfl

theorem fetchGo_400 (minDelay : Int) (cursor : Option String) (r : Nat) (clk : Clock)
    (d : Int) (ra : Option Int) (rest : List Attempt) :
    fetchGo minDelay cursor r clk (⟨d, .httpErr 400 ra⟩ :: rest)
      = (.badCursor cursor, ⟨throttleStart minDelay clk + d, throttleStart minDelay clk⟩,
         [(cursor, throttleStart minDelay clk)], []) := by
  rw [fetchGo.eq_def]
  rfl

theorem fetchGo_504 (minDelay : Int) (cursor : Option String) (r : Nat) (clk : Clock)
    (d : Int) (ra : Option Int) (rest : List Attempt) :
    fetchGo minDelay cursor r clk (⟨d, .httpErr 504 ra⟩ :: rest)
      = (let start := throttleStart minDelay clk
         let w := min (1000 * 2 ^ r) 16000
         let out := fetchGo minDelay cursor (r + 1) ⟨start + d + w, start⟩ rest
         (out.1, out.2.1, (cursor, start) :: out.2.2.1, w :: out.2.2.2)) := by
  rw [fetchGo.eq_def]
  rfl

theorem fetchGo_fatal (minDelay : Int) (cursor : Option String) (r : Nat) (clk : Clock)
    (d : Int) (status : Nat) (ra : Option Int) (rest : List Attempt)
    (h429 : status ≠ 429) (h400 : status ≠ 400) (h504 : status ≠ 504) :
    fetchGo minDelay cursor r clk (⟨d, .httpErr status ra⟩ :: rest)
      = (.fatal status, ⟨throttleStart minDelay clk + d, throttleStart minDelay clk⟩,
         [(cursor, throttleStart minDelay clk)], []) := by
  rw [fetchGo.eq_def]
  simp [h429, h400, h504]


theorem fetchGo_cursor_const (minDelay : Int) (cursor : Option String) :
    ∀ (script : List Attempt) (r : Nat) (clk : Clock),
      ∀ p ∈ reqsOf (fetchGo minDelay cursor r clk script), p.1 = cursor := by
  intro script
  induction script with
  | nil =>
    intro r clk p hp
    simp [fetchGo_nil, reqsOf] at hp
  | cons a rest ih =>
    intro r clk p hp
    obtain ⟨d, outc⟩ := a
    cases outc with
    | ok body =>
      simp only [fetchGo_ok, reqsOf, List.mem_singleton] at hp
      rw [hp]
    | noResponse =>
      simp only [fetchGo_noResponse, reqsOf, List.mem_cons] at hp
      rcases hp with h | h
      · rw [h]
      · exact ih _ _ p h
    | httpErr status ra =>
      by_cases h429 : status = 429
      · subst h429
        simp only [fetchGo_429, reqsOf, List.mem_cons] at hp
        rcases hp with h | h
        · rw [h]
        · exact ih _ _ p h
      · by_cases h400 : status = 400
        · subst h400
          simp only [fetchGo_400, reqsOf, List.mem_singleton] at hp
          rw [hp]
        · by_cases h504 : status = 504
          · subst h504
            simp only [fetchGo_504, reqsOf, List.mem_cons] at hp
            rcases hp with h | h
            · rw [h]
            · exact ih _ _ p h
          · simp only [fetchGo_fatal minDelay cursor r clk d status ra rest h429 h400 h504,
              reqsOf, List.mem_singleton] at hp
            rw [hp]

theorem attemptWf_dur {a : Attempt} (h : attemptWf a = true) : 0 ≤ a.dur := by
  unfold attemptWf at h
  rw [Bool.and_eq_true] at h
  exact of_decide_eq_true h.1

theorem attemptWf_ra {d : Int} {status : Nat} {ra : Option Int}
    (h : attemptWf ⟨d, .httpErr status ra⟩ = true) : 0 ≤ ra.getD 10 := by
  unfold attemptWf at h
  rw [Bool.and_eq_true] at h
  exact of_decide_eq_true h.2

theorem fetchGo_spacing (minDelay : Int) (cursor : Option String) :
    ∀ (script : List Attempt) (r : Nat) (clk : Clock),
      (∀ a ∈ script, attemptWf a = true) →
      (∀ p ∈ (reqsOf (fetchGo minDelay cursor r clk script)).head?, clk.last + minDelay ≤ p.2)
      ∧ List.Chain' (fun p q => p.2 + minDelay ≤ q.2) (reqsOf (fetchGo minDelay cursor r clk script)) := by
  intro script
  induction script with
  | nil =>
    intro r clk _
    refine ⟨?_, ?_⟩ <;> simp [fetchGo_nil, reqsOf]
  | cons a rest ih =>
    intro r clk hwf
    obtain ⟨d, outc⟩ := a
    have hd : 0 ≤ d := attemptWf_dur (hwf _ (List.mem_cons_self _ _))
    have hwfrest : ∀ x ∈ rest, attemptWf x = true := fun x hx => hwf x (List.mem_cons_of_mem _ hx)
    have hstart := throttleStart_ge_last minDelay clk
    cases outc with
    | ok body =>
      simp only [fetchGo_ok, reqsOf]
      refine ⟨?_, ?_⟩
      · intro p hp
        simp only [List.head?_cons, Option.mem_def, Option.some.injEq] at hp
        rw [← hp]
        exact hstart
      · simp
    | noResponse =>
      simp only [fetchGo_noResponse, reqsOf]
      have hw : (0 : Int) ≤ min (1000 * 2 ^ r) 16000 := by positivity
      have H := ih (r + 1) ⟨throttleStart minDelay clk + d + min (1000 * 2 ^ r) 16000, throttleStart minDelay clk⟩ hwfrest
      refine ⟨?_, ?_⟩
      · intro p hp
        simp only [List.head?_cons, Option.mem_def, Option.some.injEq] at hp
        rw [← hp]
        exact hstart
      · rw [List.chain'_cons']
        refine ⟨?_, H.2⟩
        intro q hq
        have := H.1 q hq
        simpa using this
    | httpErr status ra =>
      have hra : 0 ≤ ra.getD 10 := attemptWf_ra (hwf _ (List.mem_cons_self _ _))
      by_cases h429 : status = 429
      · subst h429
        simp only [fetchGo_429, reqsOf]
        have hw : (0 : Int) ≤ ra.getD 10 * 1000 := by positivity
        have H := ih r ⟨throttleStart minDelay clk + d + ra.getD 10 * 1000,
            throttleStart minDelay clk + d + ra.getD 10 * 1000 + ra.getD 10 * 1000⟩ hwfrest
        refine ⟨?_, ?_⟩
        · intro p hp
          simp only [List.head?_cons, Option.mem_def, Option.some.injEq] at hp
          rw [← hp]
          exact hstart
        · rw [List.chain'_cons']
          refine ⟨?_, H.2⟩
          intro q hq
          have h1 := H.1 q hq
          simp only at h1
          omega
      · by_cases h400 : status = 400
        · subst h400
          simp only [fetchGo_400, reqsOf]
          refine ⟨?_, ?_⟩
          · intro p hp
            simp only [List.head?_cons, Option.mem_def, Option.some.injEq] at hp
            rw [← hp]
            exact hstart
          · simp
        · by_cases h504 : status = 504
          · subst h504
            simp only [fetchGo_504, reqsOf]
            have H := ih (r + 1) ⟨throttleStart minDelay clk + d + min (1000 * 2 ^ r) 16000, throttleStart minDelay clk⟩ hwfrest
            refine ⟨?_, ?_⟩
            · intro p hp
              simp only [List.head?_cons, Option.mem_def, Option.some.injEq] at hp
              rw [← hp]
              exact hstart
            · rw [List.chain'_cons']
              refine ⟨?_, H.2⟩
              intro q hq
              have := H.1 q hq
              simpa using this
          · simp only [fetchGo_fatal minDelay cursor r clk d status ra rest h429 h400 h504, reqsOf]
            refine ⟨?_, ?_⟩
            · intro p hp
              simp only [List.head?_cons, Option.mem_def, Option.some.injEq] at hp
              rw [← hp]
              exact hstart
            · simp


theorem fetchGo_transient (minDelay : Int) (cursor : Option String) (dok : Int) (body : ApiBody) :
    ∀ (ts : List (Int × Bool)) (r : Nat) (clk : Clock),
      resOf (fetchGo minDelay cursor r clk (ts.map transientAttempt ++ [⟨dok, .ok body⟩])) = .ok (parseBody body)
      ∧ (reqsOf (fetchGo minDelay cursor r clk (ts.map transientAttempt ++ [⟨dok, .ok body⟩]))).length = ts.length + 1
      ∧ backoffsOf (fetchGo minDelay cursor r clk (ts.map transientAttempt ++ [⟨dok, .ok body⟩]))
          = (List.range ts.length).map (fun k => min (1000 * 2 ^ (r + k)) 16000) := by
  intro ts
  induction ts with
  | nil =>
    intro r clk
    simp [List.map_nil, List.nil_append, fetchGo_ok, resOf, reqsOf, backoffsOf]
  | cons t ts ih =>
    intro r clk
    obtain ⟨d, b⟩ := t
    have hrange : List.range (ts.length + 1) = 0 :: (List.range ts.length).map Nat.succ :=
      List.range_succ_eq_map ts.length
    cases b with
    | true =>
      simp only [List.map_cons, List.cons_append, transientAttempt, fetchGo_504, resOf, reqsOf, backoffsOf]
      have H := ih (r + 1) ⟨throttleStart minDelay clk + d + min (1000 * 2 ^ r) 16000, throttleStart minDelay clk⟩
      simp only [resOf, reqsOf, backoffsOf] at H
      refine ⟨H.1, ?_, ?_⟩
      · simp only [List.length_cons]
        rw [H.2.1]
      · rw [H.2.2, List.length_cons, hrange]
        simp only [List.map_cons, List.map_map]
        refine congrArg₂ _ ?_ ?_
        · rw [Nat.add_zero]
        · refine List.map_congr_left ?_
          intro k _
          simp only [Function.comp_apply]
          rw [show r + 1 + k = r + Nat.succ k by omega]
    | false =>
      simp only [List.map_cons, List.cons_append, transientAttempt, fetchGo_noResponse, resOf, reqsOf, backoffsOf]
      have H := ih (r + 1) ⟨throttleStart minDelay clk + d + min (1000 * 2 ^ r) 16000, throttleStart minDelay clk⟩
      simp only [resOf, reqsOf, backoffsOf] at H
      refine ⟨H.1, ?_, ?_⟩
      · simp only [List.length_cons]
        rw [H.2.1]
      · rw [H.2.2, List.length_cons, hrange]
        simp only [List.map_cons, List.map_map]
        refine congrArg₂ _ ?_ ?_
        · rw [Nat.add_zero]
        · refine List.map_congr_left ?_
          intro k _
          simp only [Function.comp_apply]
          rw [show r + 1 + k = r + Nat.succ k by omega]

/-! ## Lemmas about the fetcher loop trace -/

theorem fetcherGo_badCursor (srest : List FetchResult) (c : Option String)
    (qrest : List (Option String)) (lc : Option String) :
    fetcherGo (.badCursor :: srest) (c :: qrest) lc
      = .fetchReq c :: .fsleep 5000 :: fetcherGo srest (qrest ++ [none]) none := by
  rw [fetcherGo.eq_def]

theorem fetcherGo_otherErr (srest : List FetchResult) (c : Option String)
    (qrest : List (Option String)) (lc : Option String) :
    fetcherGo (.otherErr :: srest) (c :: qrest) lc
      = .fetchReq c :: .fsleep 3000 :: fetcherGo srest (qrest ++ (if c.isSome then [c] else [])) lc := by
  rw [fetcherGo.eq_def]

theorem fetcherGo_head (r : FetchResult) (srest : List FetchResult) (q : Option String)
    (qs : List (Option String)) (lc : Option String) :
    ∃ tail, fetcherGo (r :: srest) (q :: qs) lc = .fetchReq q :: tail := by
  cases r with
  | page evs nc hm =>
    rw [fetcherGo.eq_def]
    exact ⟨_, rfl⟩
  | badCursor =>
    rw [fetcherGo_badCursor]
    exact ⟨_, rfl⟩
  | otherErr =>
    rw [fetcherGo_otherErr]
    exact ⟨_, rfl⟩

/-! ## Claim theorems: fetcher, throttle, pipeline -/

/-- C2 counterexample: the claim asserts that every HTTP 5xx response is
retried indefinitely on the same cursor. At the concrete input of a fetch
whose first attempt returns status 500 (with a successful attempt available
right after), fetchEvents instead throws a fatal error after exactly one
request, performing no retry and no backoff: only 504 is retried. -/
theorem C2_5xx_counterexample :
    resOf (fetchEvents 500 (some "c0") ⟨0, 0⟩ [⟨0, .httpErr 500 none⟩, ⟨0, .ok body0⟩]) = .fatal 500
    ∧ reqsOf (fetchEvents 500 (some "c0") ⟨0, 0⟩ [⟨0, .httpErr 500 none⟩, ⟨0, .ok body0⟩]) = [(some "c0", 500)]
    ∧ backoffsOf (fetchEvents 500 (some "c0") ⟨0, 0⟩ [⟨0, .httpErr 500 none⟩, ⟨0, .ok body0⟩]) = [] := by
  refine ⟨?_, ?_, ?_⟩ <;> decide

/-- C2 as amended: for every fetch call that receives HTTP 504 or no response
at all, fetchEvents retries the same cursor indefinitely — after any number n
of consecutive such failures followed by a success, n + 1 requests were
issued, all with the same cursor — and the delay before the k-th retry is
min(1000ms * 2^(k-1), 16000ms). -/
theorem C2_transient_backoff (minDelay : Int) (cursor : Option String) (clk : Clock)
    (ts : List (Int × Bool)) (d : Int) (body : ApiBody) :
    resOf (fetchEvents minDelay cursor clk (ts.map transientAttempt ++ [⟨d, .ok body⟩])) = .ok (parseBody body)
    ∧ (reqsOf (fetchEvents minDelay cursor clk (ts.map transientAttempt ++ [⟨d, .ok body⟩]))).length = ts.length + 1
    ∧ (∀ p ∈ reqsOf (fetchEvents minDelay cursor clk (ts.map transientAttempt ++ [⟨d, .ok body⟩])), p.1 = cursor)
    ∧ backoffsOf (fetchEvents minDelay cursor clk (ts.map transientAttempt ++ [⟨d, .ok body⟩]))
        = (List.range ts.length).map (fun k => min (1000 * 2 ^ k) 16000) := by
  unfold fetchEvents
  have H := fetchGo_transient minDelay cursor d body ts 0 clk
  refine ⟨H.1, H.2.1, fetchGo_cursor_const minDelay cursor _ 0 clk, ?_⟩
  rw [H.2.2]
  simp

/-- C3 counterexample: the claim asserts that every Fatal-classified error
(here: a fetch failure that is not 429/400/504/no-response) terminates the
process with exit code 1 after a final checkpoint attempt. In this concrete
run, such an error occurs on the first fetch, the fetcher loop swallows it
and retries, and the process later completes normally with exit code 0 —
the Fatal error neither terminated the process nor triggered exit 1. -/
theorem C3_fatal_counterexample :
    (runIngestion parseNone ⟨[], ⟨some "c0", 0⟩⟩ [.otherErr, .page [] none false]
        [true, true, false]).map (fun res => res.exitCode) = some 0 := by
  decide

/-- C3 as amended: a Fatal-classified fetch error is caught inside the
fetcher loop, which sleeps 3000ms and retries the same cursor instead of
terminating; only an error escaping runIngestion itself terminates the
process, and the catch handler then exits with code 1 without attempting any
checkpoint write. -/
theorem C3_fatal_handling (c : String) (lc : Option String) (r2 : FetchResult)
    (srest : List FetchResult) :
    (∃ tail, fetcherGo (.otherErr :: r2 :: srest) [some c] lc
        = .fetchReq (some c) :: .fsleep 3000 :: .fetchReq (some c) :: tail)
    ∧ fatalHandlerActions = [.logErr, .exitProc 1]
    ∧ fatalHandlerActions.all (fun pa => !isSaveAct pa) = true := by
  refine ⟨?_, rfl, rfl⟩
  rw [fetcherGo_otherErr]
  rw [show (([] : List (Option String)) ++ (if (some c).isSome then [some c] else [])) = [some c] from rfl]
  obtain ⟨tail, htail⟩ := fetcherGo_head r2 srest (some c) [] lc
  exact ⟨tail, by rw [htail]⟩

/-- C4: after a 429 response carrying retry-after R (default 10 when the
header is absent), the next request starts no earlier than the 429 response
time plus R seconds, whatever the configured minimum inter-request delay,
and it reuses the same cursor. The response time of the first attempt is its
throttled start plus its duration d. -/
theorem C4_429_cooldown (minDelay : Int) (cursor : Option String) (clk : Clock)
    (d : Int) (ra : Option Int) (a : Attempt) (rest : List Attempt) :
    ∃ s1 tail,
      reqsOf (fetchEvents minDelay cursor clk (⟨d, .httpErr 429 ra⟩ :: a :: rest))
        = (cursor, throttleStart minDelay clk) :: (cursor, s1) :: tail
      ∧ (throttleStart minDelay clk + d) + ra.getD 10 * 1000 ≤ s1 := by
  unfold fetchEvents
  simp only [fetchGo_429, reqsOf]
  obtain ⟨tail, htail⟩ := fetchGo_head minDelay cursor 0
    ⟨throttleStart minDelay clk + d + ra.getD 10 * 1000,
     throttleStart minDelay clk + d + ra.getD 10 * 1000 + ra.getD 10 * 1000⟩ a rest
  simp only [reqsOf] at htail
  refine ⟨throttleStart minDelay
      ⟨throttleStart minDelay clk + d + ra.getD 10 * 1000,
       throttleStart minDelay clk + d + ra.getD 10 * 1000 + ra.getD 10 * 1000⟩, tail, ?_, ?_⟩
  · rw [htail]
  · have h := throttleStart_ge_now minDelay
      ⟨throttleStart minDelay clk + d + ra.getD 10 * 1000,
       throttleStart minDelay clk + d + ra.getD 10 * 1000 + ra.getD 10 * 1000⟩
    simpa using h

/-- C5: within any run of the fetcher, the start times of consecutive
requests are at least minDelay apart, and the first request starts at least
minDelay after the recorded lastRequestTime — so the bound also holds across
successive fetchEvents calls, which thread the same clock. Durations and
retry-after values are nonnegative (attemptWf), as in reality. -/
theorem C5_min_request_spacing (minDelay : Int) (cursor : Option String) (clk : Clock)
    (script : List Attempt) (hwf : ∀ a ∈ script, attemptWf a = true) :
    (∀ p ∈ (reqsOf (fetchEvents minDelay cursor clk script)).head?, clk.last + minDelay ≤ p.2)
    ∧ List.Chain' (fun p q => p.2 + minDelay ≤ q.2) (reqsOf (fetchEvents minDelay cursor clk script)) :=
  fetchGo_spacing minDelay cursor script 0 clk hwf

/-- Witness for C5 at a concrete input: default MIN_DELAY_MS = 500, one 504
then a success — two requests 1500ms apart (500 throttle + 7ms latency + 1000
backoff + remaining throttle), satisfying the chain bound. -/
theorem C5_min_request_spacing_witness :
    (∀ a ∈ [(⟨7, .httpErr 504 none⟩ : Attempt), ⟨3, .ok body0⟩], attemptWf a = true)
    ∧ (∀ p ∈ (reqsOf (fetchEvents 500 (some "c0") ⟨0, 0⟩ [⟨7, .httpErr 504 none⟩, ⟨3, .ok body0⟩])).head?,
        (0 : Int) + 500 ≤ p.2)
    ∧ List.Chain' (fun p q => p.2 + 500 ≤ q.2)
        (reqsOf (fetchEvents 500 (some "c0") ⟨0, 0⟩ [⟨7, .httpErr 504 none⟩, ⟨3, .ok body0⟩])) := by
  refine ⟨by decide, ?_⟩
  have h := C5_min_request_spacing 500 (some "c0") ⟨0, 0⟩
    [⟨7, .httpErr 504 none⟩, ⟨3, .ok body0⟩] (by decide)
  exact h

/-- C9: an HTTP 400 makes fetchEvents signal the stale-cursor condition
carrying the offending cursor (not a fatal error), and the fetcher loop then
sleeps its 5000ms cooldown and issues the initial no-cursor request next:
the cursor chain restarts from the beginning. -/
theorem C9_stale_cursor_resets (minDelay : Int) (cursor : Option String) (clk : Clock)
    (d : Int) (ra : Option Int) (rest : List Attempt) (c : Option String) (lc : Option String)
    (r2 : FetchResult) (srest : List FetchResult) :
    resOf (fetchEvents minDelay cursor clk (⟨d, .httpErr 400 ra⟩ :: rest)) = .badCursor cursor
    ∧ ∃ tail, fetcherGo (.badCursor :: r2 :: srest) [c] lc
        = .fetchReq c :: .fsleep 5000 :: .fetchReq none :: tail := by
  constructor
  · unfold fetchEvents
    simp only [fetchGo_400, resOf]
  · rw [fetcherGo_badCursor]
    rw [show (([] : List (Option String)) ++ [(none : Option String)]) = [none] from rfl]
    obtain ⟨tail, htail⟩ := fetcherGo_head r2 srest none [] none
    exact ⟨tail, by rw [htail]⟩

/-- C1: evaluating the pipeline on the spec scenario — fresh state, one page
of three events a, b, c with hasMore = false. The events table does end with
exactly 3 rows and the checkpoint cursor is null, but the checkpoint counter
stays 0, not 3: the writer and the final flush both call
saveProgress(lastCursor, 0), never incrementing total_processed. The unused
worker.ts processBatch, by contrast, increments it to 3 on the same batch,
which is the claimed behaviour. -/
theorem C1_scenario_evaluation :
    (runIngestion parseNone ⟨[], ⟨none, 0⟩⟩ [.page [mkEvent "a", mkEvent "b", mkEvent "c"] none false]
        [true, false, false]).map
        (fun res => (res.db.events.length, res.db.state.next_cursor, res.db.state.total_processed, res.exitCode))
      = some (3, none, 0, 0)
    ∧ (processBatch parseNone ⟨[], ⟨none, 0⟩⟩ [mkEvent "a", mkEvent "b", mkEvent "c"] none).state.total_processed = 3 := by
  refine ⟨?_, ?_⟩ <;> decide
